import Mathlib

/-!
# Verification of the PathWalker shortest-path compute core

Shallow embedding of `src/services/sortest_path.rs` (the OpenCL kernel
pipeline `initialize_algorithm_buffers` / `shortest_path_algorithm` /
`merge_sortest_path` and the host-side controller `get_sortest_path`)
and of the validation cascade in `src/endpoints/mod.rs`.

Device `float` values are embedded as rationals.  `FLT_MAX` is the exact
largest finite f32 value; addition saturates at `FLT_MAX` (for the value
ranges exercised by this program, f32 addition is exact below the
sentinel and collapses to `FLT_MAX` at it, which is the behavior the
kernels rely on).  Buffers are length-`N` lists indexed by lane id; each
kernel dispatch maps every lane `gid < N` to its per-lane function, which
is race-free because every lane writes only its own index.
-/

namespace PathWalker

/-- The largest finite f32 value, `FLT_MAX = (2^24 - 1) * 2^104`. -/
def fltMax : ℚ := 340282346638528859811704183484516925440

/-- Embedded f32 addition: exact rational addition, saturating at `FLT_MAX`.
This captures the one rounding fact the kernels depend on: adding a finite
weight to the `FLT_MAX` sentinel yields `FLT_MAX` again. -/
def fadd (a b : ℚ) : ℚ := if fltMax ≤ a + b then fltMax else a + b

/-- `models/mod.rs`: the request body `Matrix { width, height, data }`,
`data` being the row-major flattened adjacency matrix. -/
structure Matrix where
  width : ℕ
  height : ℕ
  data : List ℚ
deriving DecidableEq, Repr

/-- The five device buffers of one request, all of length `N = width`:
committed distances (`result`), per-round candidate distances (`distance`),
visited flags (`visited`, an `int` buffer holding 0/1), committed
predecessors (`vertex`) and candidate predecessors (`vertex_temp`). -/
structure KState where
  result : List ℚ
  distance : List ℚ
  visited : List ℤ
  vertex : List ℚ
  vertex_temp : List ℚ
deriving DecidableEq, Repr

/-- Kernel `initialize_algorithm_buffers`, one dispatch over `n` lanes:
lane 0 gets `visited = 1, result = 0`, every other lane `visited = 0,
result = FLT_MAX`; all lanes zero `distance`, `vertex` and `vertex_temp`. -/
def initialize_algorithm_buffers (n : ℕ) : KState :=
  { result := (List.range n).map (fun gid => if gid = 0 then 0 else fltMax),
    distance := (List.range n).map (fun _ => 0),
    visited := (List.range n).map (fun gid => if gid = 0 then 1 else 0),
    vertex := (List.range n).map (fun _ => 0),
    vertex_temp := (List.range n).map (fun _ => 0) }

/-- One step of the serial edge scan inside kernel
`shortest_path_algorithm`: read `weight = matrix[gid*n + edge]`; if the
edge is valid (`weight != 0 && weight != FLT_MAX`), compute
`dist = result[edge] + weight` and overwrite the lane's
`(distance[gid], vertex_temp[gid])` pair when
`distance[gid] == 0 || result[gid] > dist`. -/
def relaxScanStep (data : List ℚ) (n : ℕ) (res : List ℚ) (gid : ℕ)
    (dv : ℚ × ℚ) (edge : ℕ) : ℚ × ℚ :=
  let weight := data.getD (gid * n + edge) 0
  if weight ≠ 0 ∧ weight ≠ fltMax then
    let dist := fadd (res.getD edge 0) weight
    if dv.1 = 0 ∨ res.getD gid 0 > dist then (dist, (edge : ℚ)) else dv
  else dv

/-- One lane of kernel `shortest_path_algorithm`: if `visited[gid] != 1`,
mark it 1 and run the serial scan over all `n` edges; otherwise leave the
lane's `(visited, distance, vertex_temp)` untouched. -/
def relaxLane (data : List ℚ) (n : ℕ) (s : KState) (gid : ℕ) : ℤ × ℚ × ℚ :=
  if s.visited.getD gid 0 ≠ 1 then
    (1, (List.range n).foldl (relaxScanStep data n s.result gid)
      (s.distance.getD gid 0, s.vertex_temp.getD gid 0))
  else (s.visited.getD gid 0, s.distance.getD gid 0, s.vertex_temp.getD gid 0)

/-- Kernel `shortest_path_algorithm` dispatched over `n` lanes.  It writes
only `visited`, `distance` and `vertex_temp`; `result`, `vertex` and the
matrix are read-only here. -/
def shortest_path_algorithm (data : List ℚ) (n : ℕ) (s : KState) : KState :=
  { s with
    visited := (List.range n).map (fun gid => (relaxLane data n s gid).1),
    distance := (List.range n).map (fun gid => (relaxLane data n s gid).2.1),
    vertex_temp := (List.range n).map (fun gid => (relaxLane data n s gid).2.2) }

/-- One lane of kernel `merge_sortest_path`: if `result[gid] > distance[gid]`,
commit `result[gid] = distance[gid]` and `vertex[gid] = vertex_temp[gid]`;
then reset `visited[gid] = 0` unless `gid == 0`.
Returns `(result, vertex, visited)` for the lane. -/
def mergeLane (s : KState) (gid : ℕ) : ℚ × ℚ × ℤ :=
  let rv : ℚ × ℚ :=
    if s.result.getD gid 0 > s.distance.getD gid 0 then
      (s.distance.getD gid 0, s.vertex_temp.getD gid 0)
    else (s.result.getD gid 0, s.vertex.getD gid 0)
  (rv.1, rv.2, if gid ≠ 0 then 0 else s.visited.getD gid 0)

/-- Kernel `merge_sortest_path` dispatched over `n` lanes.  It writes only
`result`, `vertex` and `visited`. -/
def merge_sortest_path (n : ℕ) (s : KState) : KState :=
  { s with
    result := (List.range n).map (fun gid => (mergeLane s gid).1),
    vertex := (List.range n).map (fun gid => (mergeLane s gid).2.1),
    visited := (List.range n).map (fun gid => (mergeLane s gid).2.2) }

/-- One controller round: enqueue `shortest_path_algorithm`, then
`merge_sortest_path`, each blocking until completion. -/
def roundStep (data : List ℚ) (n : ℕ) (s : KState) : KState :=
  merge_sortest_path n (shortest_path_algorithm data n s)

/-- Device state after the Init dispatch followed by `k` (Relax, Merge)
rounds of `get_sortest_path`'s loop. -/
def stateAfter (m : Matrix) (k : ℕ) : KState :=
  (roundStep m.data m.width)^[k] (initialize_algorithm_buffers m.width)

/-- Device state after all `width` rounds of `get_sortest_path`'s loop. -/
def finalState (m : Matrix) : KState := stateAfter m m.width

/-- The Rust `vertex[x] as i32` cast: f32-to-i32 truncation toward zero
(every value the program stores in `vertex` is a small nonnegative integer,
so saturation never triggers). -/
def f32ToI32 (q : ℚ) : ℤ := Int.tdiv q.num (q.den : ℤ)

/-- `get_sortest_path`, success path: run Init, then `width` rounds of
(Relax, Merge), read the buffers back and push
`PathResult(vertex[x] as i32, distance[x])` for `x` in `0..width`.
Note the reported distance comes from the candidate `distance` buffer. -/
def get_sortest_path (m : Matrix) : List (ℤ × ℚ) :=
  (List.range m.width).map (fun x =>
    (f32ToI32 ((finalState m).vertex.getD x 0), (finalState m).distance.getD x 0))

/-- Edge `(v, e)` is valid for the relax kernel: its weight
`matrix[v*n + e]` is neither `0` nor `FLT_MAX`. -/
def validEdge (data : List ℚ) (n v e : ℕ) : Prop :=
  data.getD (v * n + e) 0 ≠ 0 ∧ data.getD (v * n + e) 0 ≠ fltMax

instance (data : List ℚ) (n v e : ℕ) : Decidable (validEdge data n v e) := by
  unfold validEdge; infer_instance

/-- The relaxation candidate `result[e] + weight(v,e)` read by lane `v`
at edge `e`. -/
def cand (data : List ℚ) (n : ℕ) (res : List ℚ) (v e : ℕ) : ℚ :=
  fadd (res.getD e 0) (data.getD (v * n + e) 0)

/-- Vertex `v` has at least one valid edge. -/
def hasValidEdge (data : List ℚ) (n v : ℕ) : Prop :=
  ∃ e, e < n ∧ validEdge data n v e

instance (data : List ℚ) (n v : ℕ) : Decidable (hasValidEdge data n v) := by
  unfold hasValidEdge; infer_instance

/-- Invariant of the pipeline state at every round boundary (after Init
and after every Merge), for inputs with nonnegative weights: all
committed and candidate distances are nonnegative, the visited flags are
`1` exactly on lane 0, and every lane either has its committed and
candidate distances in sync (with the candidate positive whenever the
lane has a valid edge) or is still untouched (candidate `0`, committed
at the sentinel). -/
def PreInv (data : List ℚ) (n : ℕ) (s : KState) : Prop :=
  (∀ i, 0 ≤ s.result.getD i 0) ∧
  (∀ i, 0 ≤ s.distance.getD i 0) ∧
  (∀ v, v < n → s.visited.getD v 0 = if v = 0 then 1 else 0) ∧
  (∀ v, v < n →
    (s.result.getD v 0 = s.distance.getD v 0 ∧
      (v ≠ 0 → hasValidEdge data n v → 0 < s.distance.getD v 0)) ∨
    (v ≠ 0 ∧ s.distance.getD v 0 = 0 ∧ s.result.getD v 0 = fltMax))

/-! ## Controller dispatch trace

`get_sortest_path` enqueues the Init kernel once and then, in a
`for _ in 0..matrix.width` loop with no break, one Relax and one Merge
kernel per iteration.  `runTrace` runs the same pipeline while recording
each dispatched stage. -/

/-- A kernel dispatch stage of the pipeline. -/
inductive Stage where
  | start
  | relax
  | merge
deriving DecidableEq, Repr

/-- One controller round, also recording the two dispatches it makes. -/
def roundStepT (data : List ℚ) (n : ℕ) (st : KState × List Stage) : KState × List Stage :=
  (merge_sortest_path n (shortest_path_algorithm data n st.1),
    st.2 ++ [Stage.relax, Stage.merge])

/-- The pipeline of `get_sortest_path` with its dispatch trace: the Init
dispatch followed by `width` loop iterations. -/
def runTrace (m : Matrix) : KState × List Stage :=
  (roundStepT m.data m.width)^[m.width] (initialize_algorithm_buffers m.width, [Stage.start])

/-! ## Failure model of the host loop

Each device operation of `get_sortest_path` is numbered in program order:
operation `0` is the Init enqueue; iteration `i` of the loop performs
operations `5*i+1` (Relax enqueue), `5*i+2` (Merge enqueue) and
`5*i+3 .. 5*i+5` (the three buffer reads).  An oracle assigns to each
operation either `none` (success) or `some status` (the device-reported
failure status).  In the source, an Init failure is logged by
`process_kernel_result` and returned as `Err`, while any failure inside
the loop propagates to `.expect("Error while merging the sortest path")`,
which panics instead of returning. -/

/-- Outcome of one `get_sortest_path` call: a full path table, an error
value returned to the caller, or a panic that aborts the request. -/
inductive Outcome where
  | ok (path : List (ℤ × ℚ))
  | err (status : String)
  | panicked (message : String)
deriving DecidableEq, Repr

/-- First failure, if any, among the five device operations of loop
iteration `i` (Relax enqueue, Merge enqueue, three buffer reads). -/
def roundOps (oracle : ℕ → Option String) (i : ℕ) : Option String :=
  match oracle (5 * i + 1) with
  | some s => some s
  | none =>
    match oracle (5 * i + 2) with
    | some s => some s
    | none =>
      match oracle (5 * i + 3) with
      | some s => some s
      | none =>
        match oracle (5 * i + 4) with
        | some s => some s
        | none => oracle (5 * i + 5)

/-- `get_sortest_path` under the failure oracle: an Init-enqueue failure
is returned as an error carrying the device status; the first failure in
any loop iteration panics with the `.expect` message; if every operation
succeeds the full path table is produced. -/
def runWithFailures (m : Matrix) (oracle : ℕ → Option String) : Outcome :=
  match oracle 0 with
  | some s => Outcome.err s
  | none =>
    match (List.range m.width).findSome? (fun i => roundOps oracle i) with
    | some _ => Outcome.panicked "Error while merging the sortest path"
    | none => Outcome.ok (get_sortest_path m)

/-- Modelled from the spec (claim C9 wording): every mid-request failure —
Init included — aborts the request and is returned as an error carrying
the device-reported status string, and a full table is produced exactly
when all `1 + 5*width` operations succeed. -/
def claimOutcome (m : Matrix) (oracle : ℕ → Option String) : Outcome :=
  match oracle 0 with
  | some s => Outcome.err s
  | none =>
    if (List.range' 1 (5 * m.width)).all (fun k => (oracle k).isNone) then
      Outcome.ok (get_sortest_path m)
    else
      Outcome.panicked "Error while merging the sortest path"

/-! ## The `/sortest` endpoint validation cascade (`endpoints/mod.rs`) -/

/-- An HTTP response of the endpoint: a 400 validation error with its
message, or the 200 success payload (the 502 branch is covered by the
failure model above). -/
inductive Response where
  | badRequest (message : String)
  | okPath (path : List (ℤ × ℚ))
deriving DecidableEq, Repr

/-- `sortest_path_endpoint`: the four validation guards in source order
(`data.len() == 0`, `height != width`, `height > 128`,
`width * height != data.len()`), then the core call. -/
def sortest_path_endpoint (m : Matrix) : Response :=
  if m.data.length = 0 then Response.badRequest "The matrix is empty"
  else if m.height ≠ m.width then Response.badRequest "The matrix is not square"
  else if m.height > 128 then Response.badRequest "The matrix is too big"
  else if m.width * m.height ≠ m.data.length then
    Response.badRequest "The matrix size and dimensions are not the same"
  else Response.okPath (get_sortest_path m)

/-- Modelled from the spec (claim C8 wording): the same cascade with the
third guard written as `width > 128`. -/
def claimed_validation (m : Matrix) : Response :=
  if m.data.length = 0 then Response.badRequest "The matrix is empty"
  else if m.width ≠ m.height then Response.badRequest "The matrix is not square"
  else if m.width > 128 then Response.badRequest "The matrix is too big"
  else if m.width * m.height ≠ m.data.length then
    Response.badRequest "The matrix size and dimensions are not the same"
  else Response.okPath (get_sortest_path m)

/-! ## Concrete inputs used by the claims -/

/-- The 6×6 matrix of the spec's concrete scenario (also the repo's test). -/
def exampleMatrix : Matrix :=
  ⟨6, 6, [1, 4, 2, 0, 0, 0,
          4, 1, 1, 5, 0, 0,
          2, 1, 1, 8, 10, 0,
          0, 5, 8, 1, 2, 6,
          0, 0, 10, 2, 1, 2,
          0, 0, 0, 6, 2, 1]⟩

/-- A valid 3×3 input with a negative weight: final candidate `distance[1]`
diverges from the committed `result[1]`. -/
def negMatrix : Matrix := ⟨3, 3, [0, 0, 0, 2, 0, 4, -4, 0, 0]⟩

/-- A valid 2×2 input whose vertex 1 has no valid edge at all. -/
def zeroMatrix : Matrix := ⟨2, 2, [0, 0, 0, 0]⟩

/-- The device state of the 6×6 run entering the second Relax dispatch
(after Init and one full (Relax, Merge) round). -/
def stateRoundOne : KState := stateAfter exampleMatrix 1

/-- A failure oracle in which the very first Relax enqueue (operation 1)
fails with a device status and everything else succeeds. -/
def failRelaxOracle : ℕ → Option String :=
  fun k => if k = 1 then some "CL_OUT_OF_RESOURCES" else none

/-- The all-success failure oracle. -/
def noFailOracle : ℕ → Option String := fun _ => none

/-! ## Indexing helpers -/

lemma getD_map_range {α : Type _} {n v : ℕ} (hv : v < n) (f : ℕ → α) (d : α) :
    ((List.range n).map f).getD v d = f v := by
  rw [List.getD_eq_getElem?_getD, List.getElem?_map, List.getElem?_range hv]
  rfl

lemma relax_result_eq (data : List ℚ) (n : ℕ) (s : KState) :
    (shortest_path_algorithm data n s).result = s.result := rfl

lemma relax_vertex_eq (data : List ℚ) (n : ℕ) (s : KState) :
    (shortest_path_algorithm data n s).vertex = s.vertex := rfl

lemma relax_visited_getD (data : List ℚ) (n : ℕ) (s : KState) {v : ℕ} (hv : v < n) :
    (shortest_path_algorithm data n s).visited.getD v 0 = (relaxLane data n s v).1 :=
  getD_map_range hv _ _

lemma relax_distance_getD (data : List ℚ) (n : ℕ) (s : KState) {v : ℕ} (hv : v < n) :
    (shortest_path_algorithm data n s).distance.getD v 0 = (relaxLane data n s v).2.1 :=
  getD_map_range hv _ _

lemma relax_vertexTemp_getD (data : List ℚ) (n : ℕ) (s : KState) {v : ℕ} (hv : v < n) :
    (shortest_path_algorithm data n s).vertex_temp.getD v 0 = (relaxLane data n s v).2.2 :=
  getD_map_range hv _ _

lemma merge_distance_eq (n : ℕ) (s : KState) :
    (merge_sortest_path n s).distance = s.distance := rfl

lemma merge_vertexTemp_eq (n : ℕ) (s : KState) :
    (merge_sortest_path n s).vertex_temp = s.vertex_temp := rfl

lemma merge_result_getD (n : ℕ) (s : KState) {v : ℕ} (hv : v < n) :
    (merge_sortest_path n s).result.getD v 0 = (mergeLane s v).1 :=
  getD_map_range hv _ _

lemma merge_vertex_getD (n : ℕ) (s : KState) {v : ℕ} (hv : v < n) :
    (merge_sortest_path n s).vertex.getD v 0 = (mergeLane s v).2.1 :=
  getD_map_range hv _ _

lemma merge_visited_getD (n : ℕ) (s : KState) {v : ℕ} (hv : v < n) :
    (merge_sortest_path n s).visited.getD v 0 = (mergeLane s v).2.2 :=
  getD_map_range hv _ _

lemma relaxLane_of_visited (data : List ℚ) (n : ℕ) (s : KState) (v : ℕ)
    (h : s.visited.getD v 0 = 1) :
    relaxLane data n s v = (1, s.distance.getD v 0, s.vertex_temp.getD v 0) := by
  unfold relaxLane
  rw [if_neg (by rw [h]; simp), h]

lemma mergeLane_eq (s : KState) (v : ℕ) :
    mergeLane s v =
      ((if s.distance.getD v 0 < s.result.getD v 0 then s.distance.getD v 0
        else s.result.getD v 0),
       (if s.distance.getD v 0 < s.result.getD v 0 then s.vertex_temp.getD v 0
        else s.vertex.getD v 0),
       (if v ≠ 0 then 0 else s.visited.getD v 0)) := by
  unfold mergeLane
  by_cases hc : s.distance.getD v 0 < s.result.getD v 0
  · simp only [if_pos (gt_iff_lt.mpr hc), if_pos hc]
  · simp only [if_neg (fun h => hc (gt_iff_lt.mp h)), if_neg hc]

lemma merge_result_getD' (n : ℕ) (s : KState) {v : ℕ} (hv : v < n) :
    (merge_sortest_path n s).result.getD v 0 =
      if s.distance.getD v 0 < s.result.getD v 0 then s.distance.getD v 0
      else s.result.getD v 0 := by
  rw [merge_result_getD n s hv, mergeLane_eq]

lemma merge_vertex_getD' (n : ℕ) (s : KState) {v : ℕ} (hv : v < n) :
    (merge_sortest_path n s).vertex.getD v 0 =
      if s.distance.getD v 0 < s.result.getD v 0 then s.vertex_temp.getD v 0
      else s.vertex.getD v 0 := by
  rw [merge_vertex_getD n s hv, mergeLane_eq]

lemma merge_visited_getD' (n : ℕ) (s : KState) {v : ℕ} (hv : v < n) :
    (merge_sortest_path n s).visited.getD v 0 =
      if v ≠ 0 then 0 else s.visited.getD v 0 := by
  rw [merge_visited_getD n s hv, mergeLane_eq]

lemma init_result_getD {n v : ℕ} (hv : v < n) :
    (initialize_algorithm_buffers n).result.getD v 0 = if v = 0 then 0 else fltMax :=
  getD_map_range hv _ _

lemma init_distance_getD {n v : ℕ} (hv : v < n) :
    (initialize_algorithm_buffers n).distance.getD v 0 = 0 :=
  getD_map_range hv _ _

lemma init_visited_getD {n v : ℕ} (hv : v < n) :
    (initialize_algorithm_buffers n).visited.getD v 0 = if v = 0 then 1 else 0 :=
  getD_map_range hv _ _

lemma init_vertex_getD {n v : ℕ} (hv : v < n) :
    (initialize_algorithm_buffers n).vertex.getD v 0 = 0 :=
  getD_map_range hv _ _

lemma init_vertexTemp_getD {n v : ℕ} (hv : v < n) :
    (initialize_algorithm_buffers n).vertex_temp.getD v 0 = 0 :=
  getD_map_range hv _ _

lemma stateAfter_zero (m : Matrix) :
    stateAfter m 0 = initialize_algorithm_buffers m.width := rfl

lemma stateAfter_succ (m : Matrix) (k : ℕ) :
    stateAfter m (k + 1) = roundStep m.data m.width (stateAfter m k) := by
  unfold stateAfter
  rw [Function.iterate_succ_apply']

/-- The serial edge scan leaves the lane untouched when no scanned edge
is valid. -/
lemma relaxFold_no_valid (data : List ℚ) (n : ℕ) (res : List ℚ) (v : ℕ)
    (d0 vt0 : ℚ) (k : ℕ) (h : ∀ e, e < k → ¬ validEdge data n v e) :
    (List.range k).foldl (relaxScanStep data n res v) (d0, vt0) = (d0, vt0) := by
  induction k with
  | zero => rfl
  | succ k ih =>
    rw [List.range_succ, List.foldl_append,
      ih (fun e he => h e (Nat.lt_succ_of_lt he))]
    simp only [List.foldl_cons, List.foldl_nil]
    unfold relaxScanStep
    have hnv : ¬ (data.getD (v * n + k) 0 ≠ 0 ∧ data.getD (v * n + k) 0 ≠ fltMax) :=
      h k (Nat.lt_succ_self k)
    simp only [if_neg hnv]

/-- One scan step, written with `validEdge` and `cand`. -/
lemma relaxScanStep_eq (data : List ℚ) (n : ℕ) (res : List ℚ) (v : ℕ)
    (dv : ℚ × ℚ) (e : ℕ) :
    relaxScanStep data n res v dv e =
      if validEdge data n v e then
        (if dv.1 = 0 ∨ res.getD v 0 > cand data n res v e
         then (cand data n res v e, (e : ℚ)) else dv)
      else dv := rfl

/-- After any prefix of the scan, the lane's `(distance, vertex_temp)`
pair is either untouched or holds the candidate and index of one of the
valid edges scanned so far. -/
lemma relaxFold_shape (data : List ℚ) (n : ℕ) (res : List ℚ) (v : ℕ)
    (k : ℕ) (d0 vt0 : ℚ) :
    (List.range k).foldl (relaxScanStep data n res v) (d0, vt0) = (d0, vt0) ∨
    ∃ e, e < k ∧ validEdge data n v e ∧
      (List.range k).foldl (relaxScanStep data n res v) (d0, vt0) =
        (cand data n res v e, (e : ℚ)) := by
  induction k with
  | zero => exact Or.inl rfl
  | succ k ih =>
    rw [List.range_succ, List.foldl_append, List.foldl_cons, List.foldl_nil,
      relaxScanStep_eq]
    by_cases hkv : validEdge data n v k
    · rw [if_pos hkv]
      rcases ih with h | ⟨e, he, hev, heq⟩
      · rw [h]
        by_cases hc : (d0, vt0).1 = 0 ∨ res.getD v 0 > cand data n res v k
        · rw [if_pos hc]
          exact Or.inr ⟨k, Nat.lt_succ_self k, hkv, rfl⟩
        · rw [if_neg hc]
          exact Or.inl rfl
      · rw [heq]
        by_cases hc : (cand data n res v e, (e : ℚ)).1 = 0 ∨
            res.getD v 0 > cand data n res v k
        · rw [if_pos hc]
          exact Or.inr ⟨k, Nat.lt_succ_self k, hkv, rfl⟩
        · rw [if_neg hc]
          exact Or.inr ⟨e, Nat.lt_succ_of_lt he, hev, rfl⟩
    · rw [if_neg hkv]
      rcases ih with h | ⟨e, he, hev, heq⟩
      · exact Or.inl h
      · exact Or.inr ⟨e, Nat.lt_succ_of_lt he, hev, heq⟩

/-- The scan keeps the *last* qualifying edge: if all valid candidates
are positive and `estar` is the largest scanned edge that is valid with
candidate strictly below `result[v]`, then the scan ends with exactly
`estar`'s candidate and index. -/
lemma relaxFold_last_qualifying (data : List ℚ) (n : ℕ) (res : List ℚ) (v : ℕ)
    (k : ℕ) (d0 vt0 : ℚ)
    (hpos : ∀ e, e < k → validEdge data n v e → 0 < cand data n res v e)
    (estar : ℕ) (hek : estar < k) (hevalid : validEdge data n v estar)
    (hebeats : cand data n res v estar < res.getD v 0)
    (hlast : ∀ e, e < k → estar < e →
      ¬ (validEdge data n v e ∧ cand data n res v e < res.getD v 0)) :
    (List.range k).foldl (relaxScanStep data n res v) (d0, vt0) =
      (cand data n res v estar, (estar : ℚ)) := by
  induction k with
  | zero => exact absurd hek (Nat.not_lt_zero estar)
  | succ k ih =>
    rw [List.range_succ, List.foldl_append, List.foldl_cons, List.foldl_nil,
      relaxScanStep_eq]
    by_cases hk : estar = k
    · subst hk
      have hwrite : ∀ dv : ℚ × ℚ,
          (if dv.1 = 0 ∨ res.getD v 0 > cand data n res v estar
           then (cand data n res v estar, (estar : ℚ)) else dv) =
          (cand data n res v estar, (estar : ℚ)) :=
        fun dv => if_pos (Or.inr (gt_iff_lt.mpr hebeats))
      rcases relaxFold_shape data n res v estar d0 vt0 with h | ⟨e, _, _, heq⟩
      · rw [h, if_pos hevalid, hwrite]
      · rw [heq, if_pos hevalid, hwrite]
    · have hel : estar < k := by omega
      have ihh := ih (fun e he hv' => hpos e (Nat.lt_succ_of_lt he) hv') hel
        (fun e he hgt => hlast e (Nat.lt_succ_of_lt he) hgt)
      rw [ihh]
      by_cases hkv : validEdge data n v k
      · rw [if_pos hkv]
        have h1 : ¬ ((cand data n res v estar, (estar : ℚ)).1 = 0 ∨
            res.getD v 0 > cand data n res v k) := by
          rintro (h0 | hgt)
          · exact absurd h0 (ne_of_gt (hpos estar (Nat.lt_succ_of_lt hel) hevalid))
          · exact hlast k (Nat.lt_succ_self k) (by omega) ⟨hkv, gt_iff_lt.mp hgt⟩
        rw [if_neg h1]
      · rw [if_neg hkv]

lemma fltMax_pos : (0 : ℚ) < fltMax := by
  unfold fltMax
  norm_num

lemma fadd_nonneg {a b : ℚ} (ha : 0 ≤ a) (hb : 0 ≤ b) : 0 ≤ fadd a b := by
  unfold fadd
  split
  · exact le_of_lt fltMax_pos
  · exact add_nonneg ha hb

lemma fadd_pos {a b : ℚ} (ha : 0 ≤ a) (hb : 0 < b) : 0 < fadd a b := by
  unfold fadd
  split
  · exact fltMax_pos
  · exact add_pos_of_nonneg_of_pos ha hb

lemma fadd_le_fltMax (a b : ℚ) : fadd a b ≤ fltMax := by
  unfold fadd
  split
  · exact le_refl fltMax
  · exact le_of_lt (lt_of_not_le (by assumption))

lemma getD_map_range_ge {α : Type _} {n i : ℕ} (h : n ≤ i) (f : ℕ → α) (d : α) :
    ((List.range n).map f).getD i d = d := by
  rw [List.getD_eq_getElem?_getD, List.getElem?_eq_none]
  · rfl
  · simpa using h

/-- For a lane starting from a nonzero candidate, with all valid
candidates positive, every write of the scan strictly improves on
`result[v]`: the scan ends untouched or at some valid edge whose
candidate is strictly below `result[v]`. -/
lemma relaxFold_improving (data : List ℚ) (n : ℕ) (res : List ℚ) (v : ℕ)
    (k : ℕ) (d0 vt0 : ℚ) (hd0 : d0 ≠ 0)
    (hpos : ∀ e, e < k → validEdge data n v e → 0 < cand data n res v e) :
    (List.range k).foldl (relaxScanStep data n res v) (d0, vt0) = (d0, vt0) ∨
    ∃ e, e < k ∧ validEdge data n v e ∧
      (List.range k).foldl (relaxScanStep data n res v) (d0, vt0) =
        (cand data n res v e, (e : ℚ)) ∧
      cand data n res v e < res.getD v 0 := by
  induction k with
  | zero => exact Or.inl rfl
  | succ k ih =>
    have hpos' : ∀ e, e < k → validEdge data n v e → 0 < cand data n res v e :=
      fun e he => hpos e (Nat.lt_succ_of_lt he)
    rw [List.range_succ, List.foldl_append, List.foldl_cons, List.foldl_nil,
      relaxScanStep_eq]
    by_cases hkv : validEdge data n v k
    · rw [if_pos hkv]
      rcases ih hpos' with h | ⟨e, he, hev, heq, hlt⟩
      · rw [h]
        by_cases hc : res.getD v 0 > cand data n res v k
        · rw [if_pos (Or.inr hc)]
          exact Or.inr ⟨k, Nat.lt_succ_self k, hkv, rfl, gt_iff_lt.mp hc⟩
        · rw [if_neg (by rintro (h0 | hgt) <;> [exact hd0 h0; exact hc hgt])]
          exact Or.inl rfl
      · rw [heq]
        by_cases hc : res.getD v 0 > cand data n res v k
        · rw [if_pos (Or.inr hc)]
          exact Or.inr ⟨k, Nat.lt_succ_self k, hkv, rfl, gt_iff_lt.mp hc⟩
        · rw [if_neg (by
            rintro (h0 | hgt)
            · exact absurd h0 (ne_of_gt (hpos e (Nat.lt_succ_of_lt he) hev))
            · exact hc hgt)]
          exact Or.inr ⟨e, Nat.lt_succ_of_lt he, hev, rfl, hlt⟩
    · rw [if_neg hkv]
      rcases ih hpos' with h | ⟨e, he, hev, heq, hlt⟩
      · exact Or.inl h
      · exact Or.inr ⟨e, Nat.lt_succ_of_lt he, hev, heq, hlt⟩

/-- For a lane starting from candidate `0`, with all valid candidates
positive, the scan writes at least once as soon as it sees any valid
edge: it ends holding some valid edge's candidate and index. -/
lemma relaxFold_of_zero_start (data : List ℚ) (n : ℕ) (res : List ℚ) (v : ℕ)
    (k : ℕ) (vt0 : ℚ)
    (hpos : ∀ e, e < k → validEdge data n v e → 0 < cand data n res v e)
    (hex : ∃ e, e < k ∧ validEdge data n v e) :
    ∃ e, e < k ∧ validEdge data n v e ∧
      (List.range k).foldl (relaxScanStep data n res v) (0, vt0) =
        (cand data n res v e, (e : ℚ)) := by
  induction k with
  | zero => exact absurd hex (by simp)
  | succ k ih =>
    have hpos' : ∀ e, e < k → validEdge data n v e → 0 < cand data n res v e :=
      fun e he => hpos e (Nat.lt_succ_of_lt he)
    rw [List.range_succ, List.foldl_append, List.foldl_cons, List.foldl_nil,
      relaxScanStep_eq]
    by_cases hin : ∃ e, e < k ∧ validEdge data n v e
    · obtain ⟨e, he, hev, heq⟩ := ih hpos' hin
      rw [heq]
      by_cases hkv : validEdge data n v k
      · rw [if_pos hkv]
        by_cases hc : (cand data n res v e, (e : ℚ)).1 = 0 ∨
            res.getD v 0 > cand data n res v k
        · rw [if_pos hc]
          exact ⟨k, Nat.lt_succ_self k, hkv, rfl⟩
        · rw [if_neg hc]
          exact ⟨e, Nat.lt_succ_of_lt he, hev, rfl⟩
      · rw [if_neg hkv]
        exact ⟨e, Nat.lt_succ_of_lt he, hev, rfl⟩
    · have hkv : validEdge data n v k := by
        obtain ⟨e, he, hev⟩ := hex
        rcases Nat.lt_succ_iff_lt_or_eq.mp he with h | h
        · exact absurd ⟨e, h, hev⟩ hin
        · exact h ▸ hev
      rw [relaxFold_no_valid data n res v 0 vt0 k
        (fun e he hev => hin ⟨e, he, hev⟩), if_pos hkv, if_pos (Or.inl rfl)]
      exact ⟨k, Nat.lt_succ_self k, hkv, rfl⟩

/-- One lane of the relax kernel when the lane is unvisited: it marks
itself visited and runs the serial scan. -/
lemma relaxLane_of_unvisited (data : List ℚ) (n : ℕ) (s : KState) (v : ℕ)
    (h : s.visited.getD v 0 ≠ 1) :
    relaxLane data n s v =
      (1, (List.range n).foldl (relaxScanStep data n s.result v)
        (s.distance.getD v 0, s.vertex_temp.getD v 0)) := by
  unfold relaxLane
  rw [if_pos h]

lemma getD_nonneg {l : List ℚ} (h : ∀ q ∈ l, 0 ≤ q) (i : ℕ) : 0 ≤ l.getD i 0 := by
  rw [List.getD_eq_getElem?_getD]
  cases hx : l[i]? with
  | none => exact le_refl 0
  | some q => exact h q (List.getElem?_mem hx)

/-- The round invariant is preserved by a (Relax, Merge) round, and after
the Merge of the round the committed and candidate distances agree on
every lane. -/
lemma preInv_roundStep (data : List ℚ) (n : ℕ) (hd : ∀ i, 0 ≤ data.getD i 0)
    (s : KState) (h : PreInv data n s) :
    PreInv data n (roundStep data n s) ∧
    ∀ v, v < n → (roundStep data n s).result.getD v 0 =
      (roundStep data n s).distance.getD v 0 := by
  obtain ⟨hres, hdist, hvis, hcore⟩ := h
  have hcand : ∀ v e, validEdge data n v e → 0 < cand data n s.result v e :=
    fun v e hev => fadd_pos (hres e) (lt_of_le_of_ne (hd (v * n + e)) (Ne.symm hev.1))
  have hcandnn : ∀ v e, 0 ≤ cand data n s.result v e :=
    fun v e => fadd_nonneg (hres e) (hd (v * n + e))
  have hvis0 : 0 < n → (shortest_path_algorithm data n s).visited.getD 0 0 = 1 := by
    intro hn
    rw [relax_visited_getD _ _ _ hn,
      relaxLane_of_visited _ _ _ _ (by rw [hvis 0 hn]; rfl)]
  have hkey : ∀ v, v < n →
      ((shortest_path_algorithm data n s).distance.getD v 0 < s.result.getD v 0 ∨
        (shortest_path_algorithm data n s).distance.getD v 0 = s.result.getD v 0) ∧
      0 ≤ (shortest_path_algorithm data n s).distance.getD v 0 ∧
      (v ≠ 0 → hasValidEdge data n v →
        0 < (shortest_path_algorithm data n s).distance.getD v 0) := by
    intro v hv
    by_cases hz : v = 0
    · subst hz
      rw [relax_distance_getD _ _ _ hv,
        relaxLane_of_visited _ _ _ _ (by rw [hvis 0 hv]; rfl)]
      rcases hcore 0 hv with ⟨heq, _⟩ | ⟨hne, _, _⟩
      · exact ⟨Or.inr heq.symm, hdist 0, fun h0 => absurd rfl h0⟩
      · exact absurd rfl hne
    · have hu : s.visited.getD v 0 ≠ 1 := by
        rw [hvis v hv, if_neg hz]
        decide
      rw [relax_distance_getD _ _ _ hv, relaxLane_of_unvisited _ _ _ _ hu]
      by_cases hx : hasValidEdge data n v
      · rcases hcore v hv with ⟨heq, hposd⟩ | ⟨_, hdz, hrM⟩
        · have hd0 : 0 < s.distance.getD v 0 := hposd hz hx
          rcases relaxFold_improving data n s.result v n (s.distance.getD v 0)
              (s.vertex_temp.getD v 0) (ne_of_gt hd0)
              (fun e _ hev => hcand v e hev) with hsh | ⟨e, _, hev, hsh, hlt⟩
          · rw [hsh]
            exact ⟨Or.inr heq.symm, hdist v, fun _ _ => hd0⟩
          · rw [hsh]
            exact ⟨Or.inl hlt, hcandnn v e, fun _ _ => hcand v e hev⟩
        · obtain ⟨e, he, hev, hsh⟩ := relaxFold_of_zero_start data n s.result v n
            (s.vertex_temp.getD v 0) (fun e _ hev => hcand v e hev) hx
          rw [hdz, hsh, hrM]
          exact ⟨lt_or_eq_of_le (fadd_le_fltMax _ _), hcandnn v e,
            fun _ _ => hcand v e hev⟩
      · have hno : ∀ e, e < n → ¬ validEdge data n v e :=
          fun e he hev => hx ⟨e, he, hev⟩
        rw [relaxFold_no_valid data n s.result v _ _ n hno]
        rcases hcore v hv with ⟨heq, _⟩ | ⟨_, hdz, hrM⟩
        · exact ⟨Or.inr heq.symm, hdist v, fun _ hx' => absurd hx' hx⟩
        · rw [hdz, hrM]
          exact ⟨Or.inl fltMax_pos, le_refl 0, fun _ hx' => absurd hx' hx⟩
  have heqfinal : ∀ v, v < n → (roundStep data n s).result.getD v 0 =
      (roundStep data n s).distance.getD v 0 := by
    intro v hv
    show (merge_sortest_path n (shortest_path_algorithm data n s)).result.getD v 0 =
      (merge_sortest_path n (shortest_path_algorithm data n s)).distance.getD v 0
    rw [merge_result_getD' _ _ hv, merge_distance_eq, relax_result_eq]
    rcases (hkey v hv).1 with hlt | heq2
    · rw [if_pos hlt]
    · rw [heq2, if_neg (lt_irrefl _)]
  refine ⟨⟨?_, ?_, ?_, ?_⟩, heqfinal⟩
  · intro i
    by_cases hin : i < n
    · show 0 ≤ (merge_sortest_path n (shortest_path_algorithm data n s)).result.getD i 0
      rw [merge_result_getD' _ _ hin, relax_result_eq]
      split
      · exact (hkey i hin).2.1
      · exact hres i
    · exact le_of_eq (getD_map_range_ge (le_of_not_lt hin)
        (fun gid => (mergeLane (shortest_path_algorithm data n s) gid).1) 0).symm
  · intro i
    show 0 ≤ (shortest_path_algorithm data n s).distance.getD i 0
    by_cases hin : i < n
    · exact (hkey i hin).2.1
    · exact le_of_eq (getD_map_range_ge (le_of_not_lt hin)
        (fun gid => (relaxLane data n s gid).2.1) 0).symm
  · intro v hv
    show (merge_sortest_path n (shortest_path_algorithm data n s)).visited.getD v 0 =
      if v = 0 then 1 else 0
    rw [merge_visited_getD' _ _ hv]
    by_cases hz : v = 0
    · subst hz
      rw [if_neg (fun h => h rfl), if_pos rfl]
      exact hvis0 hv
    · rw [if_pos hz, if_neg hz]
  · intro v hv
    left
    refine ⟨heqfinal v hv, fun hz hx => ?_⟩
    show 0 < (shortest_path_algorithm data n s).distance.getD v 0
    exact (hkey v hv).2.2 hz hx

/-- The round invariant holds after Init. -/
lemma preInv_init (data : List ℚ) (n : ℕ) :
    PreInv data n (initialize_algorithm_buffers n) := by
  refine ⟨?_, ?_, ?_, ?_⟩
  · intro i
    by_cases hin : i < n
    · rw [init_result_getD hin]
      split
      · exact le_refl 0
      · exact le_of_lt fltMax_pos
    · exact le_of_eq (getD_map_range_ge (le_of_not_lt hin) _ 0).symm
  · intro i
    by_cases hin : i < n
    · rw [init_distance_getD hin]
    · exact le_of_eq (getD_map_range_ge (le_of_not_lt hin) _ 0).symm
  · intro v hv
    rw [init_visited_getD hv]
  · intro v hv
    by_cases hz : v = 0
    · subst hz
      left
      rw [init_result_getD hv, init_distance_getD hv, if_pos rfl]
      exact ⟨rfl, fun h0 => absurd rfl h0⟩
    · right
      rw [init_result_getD hv, init_distance_getD hv, if_neg hz]
      exact ⟨hz, rfl, rfl⟩

/-- The round invariant holds at every round boundary. -/
lemma preInv_stateAfter (m : Matrix) (hd : ∀ i, 0 ≤ m.data.getD i 0) (k : ℕ) :
    PreInv m.data m.width (stateAfter m k) := by
  induction k with
  | zero => exact preInv_init m.data m.width
  | succ k ih =>
    rw [stateAfter_succ]
    exact (preInv_roundStep m.data m.width hd _ ih).1

/-- For a vertex with no valid edge, the candidate distance buffer keeps
its zero initialization through every round. -/
lemma isolated_distance_zero (m : Matrix) {v : ℕ} (hv : v < m.width)
    (hiso : ∀ e, e < m.width → ¬ validEdge m.data m.width v e) (k : ℕ) :
    (stateAfter m k).distance.getD v 0 = 0 := by
  induction k with
  | zero => rw [stateAfter_zero, init_distance_getD hv]
  | succ k ih =>
    rw [stateAfter_succ]
    unfold roundStep
    rw [merge_distance_eq, relax_distance_getD _ _ _ hv]
    unfold relaxLane
    by_cases hvis : (stateAfter m k).visited.getD v 0 ≠ 1
    · rw [if_pos hvis, ih, relaxFold_no_valid m.data m.width _ v 0 _ m.width hiso]
    · rw [if_neg hvis]
      exact ih

/-- Lane 0 is inert for the whole pipeline: its committed distance and
candidate distance stay `0`, its visited flag stays `1` (Init sets it,
Relax then skips the lane, Merge only resets lanes `gid ≠ 0`), and its
committed predecessor stays `0` (Merge never commits since
`result[0] > distance[0]` is `0 > 0`). -/
lemma lane0_inv (m : Matrix) (hm : 0 < m.width) (k : ℕ) :
    (stateAfter m k).result.getD 0 0 = 0 ∧
    (stateAfter m k).distance.getD 0 0 = 0 ∧
    (stateAfter m k).visited.getD 0 0 = 1 ∧
    (stateAfter m k).vertex.getD 0 0 = 0 := by
  induction k with
  | zero =>
    rw [stateAfter_zero, init_result_getD hm, init_distance_getD hm, init_visited_getD hm,
      init_vertex_getD hm]
    simp
  | succ k ih =>
    obtain ⟨h1, h2, h3, h4⟩ := ih
    rw [stateAfter_succ]
    have hd : (shortest_path_algorithm m.data m.width (stateAfter m k)).distance.getD 0 0 = 0 := by
      rw [relax_distance_getD _ _ _ hm, relaxLane_of_visited _ _ _ _ h3]
      exact h2
    have hr : (shortest_path_algorithm m.data m.width (stateAfter m k)).result.getD 0 0 = 0 := by
      rw [relax_result_eq]
      exact h1
    have hx : (shortest_path_algorithm m.data m.width (stateAfter m k)).vertex.getD 0 0 = 0 := by
      rw [relax_vertex_eq]
      exact h4
    have hw : (shortest_path_algorithm m.data m.width (stateAfter m k)).visited.getD 0 0 = 1 := by
      rw [relax_visited_getD _ _ _ hm, relaxLane_of_visited _ _ _ _ h3]
    unfold roundStep
    refine ⟨?_, ?_, ?_, ?_⟩
    · rw [merge_result_getD' _ _ hm, hd, hr]
      simp
    · rw [merge_distance_eq]
      exact hd
    · rw [merge_visited_getD' _ _ hm, if_neg (fun h => h rfl)]
      exact hw
    · rw [merge_vertex_getD' _ _ hm, hd, hr, hx]
      simp

lemma roundOps_eq_none (oracle : ℕ → Option String) (i : ℕ) :
    roundOps oracle i = none ↔
      oracle (5 * i + 1) = none ∧ oracle (5 * i + 2) = none ∧
      oracle (5 * i + 3) = none ∧ oracle (5 * i + 4) = none ∧
      oracle (5 * i + 5) = none := by
  unfold roundOps
  cases h1 : oracle (5 * i + 1) <;> cases h2 : oracle (5 * i + 2) <;>
    cases h3 : oracle (5 * i + 3) <;> cases h4 : oracle (5 * i + 4) <;>
    cases h5 : oracle (5 * i + 5) <;> simp

/-! ## Claim theorems -/

set_option maxRecDepth 10000000 in
set_option maxHeartbeats 2000000 in
/-- **C1.** For the 6×6 matrix of the spec's concrete scenario,
`get_sortest_path` returns exactly the path table
`[(0,0.0), (2,3.0), (0,2.0), (1,8.0), (3,10.0), (4,12.0)]`. -/
theorem C1_concrete_scenario :
    get_sortest_path exampleMatrix =
      [(0, 0), (2, 3), (0, 2), (1, 8), (3, 10), (4, 12)] := by
  with_unfolding_all decide

set_option maxRecDepth 10000000 in
set_option maxHeartbeats 2000000 in
/-- **C2, counterexample.** On the valid 3×3 input `negMatrix` the path
table's entry for vertex 1 reports distance `2` — the final value of the
candidate `distance` buffer — while the committed `result[1]` after the
final round is `0`.  The reported distance is *not* the committed result,
and the extractor reads the candidate buffer, not the committed one. -/
theorem C2_counterexample :
    sortest_path_endpoint negMatrix = Response.okPath (get_sortest_path negMatrix) ∧
    ((get_sortest_path negMatrix).getD 1 (0, 0)).2 = 2 ∧
    (finalState negMatrix).result.getD 1 0 = 0 ∧
    (2 : ℚ) ≠ 0 := by
  with_unfolding_all decide

set_option maxRecDepth 10000000 in
set_option maxHeartbeats 2000000 in
/-- **C3, counterexample.** In the second Relax dispatch of the 6×6 run,
lane 3 is unvisited and edge 1 is a valid neighbor with candidate
`result[1] + weight(3,1) = 4 + 5 = 9`, yet after the serial scan
`distance[3] = 10` (the candidate of edge 2) and `vertex_temp[3] = 2`:
the lane keeps the *last* candidate that beat `result[3]`, not the
minimum candidate. -/
theorem C3_counterexample :
    stateRoundOne.visited.getD 3 0 ≠ 1 ∧
    validEdge exampleMatrix.data 6 3 1 ∧
    cand exampleMatrix.data 6 stateRoundOne.result 3 1 = 9 ∧
    (shortest_path_algorithm exampleMatrix.data 6 stateRoundOne).distance.getD 3 0 = 10 ∧
    (shortest_path_algorithm exampleMatrix.data 6 stateRoundOne).vertex_temp.getD 3 0 = 2 ∧
    (9 : ℚ) < 10 := by
  with_unfolding_all decide

set_option maxRecDepth 10000000 in
set_option maxHeartbeats 2000000 in
/-- **C4, counterexample.** On the valid 2×2 all-zero input, vertex 1 has
no valid edge at all, yet the returned path table reports distance `0`
for it, not the infinite sentinel `FLT_MAX`: the candidate buffer keeps
its zero initialization and the first Merge even commits that `0` over
the sentinel in `result[1]`. -/
theorem C4_counterexample :
    sortest_path_endpoint zeroMatrix = Response.okPath (get_sortest_path zeroMatrix) ∧
    ¬ hasValidEdge zeroMatrix.data 2 1 ∧
    ((get_sortest_path zeroMatrix).getD 1 (0, 1)).2 = 0 ∧
    (0 : ℚ) ≠ fltMax := by
  with_unfolding_all decide

set_option maxRecDepth 10000000 in
set_option maxHeartbeats 2000000 in
/-- **C9, counterexample.** When the first Relax enqueue fails with device
status `CL_OUT_OF_RESOURCES`, the call does not return an error carrying
that status: the failure propagates to `.expect(...)`, which panics with
the fixed message "Error while merging the sortest path". -/
theorem C9_counterexample :
    runWithFailures zeroMatrix failRelaxOracle =
      Outcome.panicked "Error while merging the sortest path" ∧
    runWithFailures zeroMatrix failRelaxOracle ≠
      Outcome.err "CL_OUT_OF_RESOURCES" := by
  with_unfolding_all decide

/-- **C6.** In every Merge dispatch, for every lane `v < n`: `result[v]`
and `vertex[v]` are updated to `distance[v]` and `vertex_temp[v]` exactly
when `distance[v] < result[v]` (otherwise both stay unchanged), and
afterwards `visited[v] = 0` for every `v ≠ 0` while lane 0's visited flag
is left untouched (in the pipeline it is `1` from Init on, so it stays
true). -/
theorem C6_merge_semantics (n : ℕ) (s : KState) (v : ℕ) (hv : v < n) :
    (s.distance.getD v 0 < s.result.getD v 0 →
      (merge_sortest_path n s).result.getD v 0 = s.distance.getD v 0 ∧
      (merge_sortest_path n s).vertex.getD v 0 = s.vertex_temp.getD v 0) ∧
    (¬ s.distance.getD v 0 < s.result.getD v 0 →
      (merge_sortest_path n s).result.getD v 0 = s.result.getD v 0 ∧
      (merge_sortest_path n s).vertex.getD v 0 = s.vertex.getD v 0) ∧
    (v ≠ 0 → (merge_sortest_path n s).visited.getD v 0 = 0) ∧
    (v = 0 → (merge_sortest_path n s).visited.getD v 0 = s.visited.getD v 0) := by
  rw [merge_result_getD n s hv, merge_vertex_getD n s hv, merge_visited_getD n s hv,
    mergeLane_eq]
  refine ⟨fun h => ?_, fun h => ?_, fun h => ?_, fun h => ?_⟩
  · simp only [if_pos h]
    exact ⟨trivial, trivial⟩
  · simp only [if_neg h]
    exact ⟨trivial, trivial⟩
  · simp only [if_pos h]
  · subst h
    simp

/-- **C6, witness.** The commit branch, observed concretely: in the first
Merge of the 6×6 run, lane 1 has candidate `4 < FLT_MAX` and commits it
together with its candidate predecessor `0`. -/
theorem C6_merge_semantics_witness :
    (shortest_path_algorithm exampleMatrix.data 6 (initialize_algorithm_buffers 6)).distance.getD 1 0 <
      (shortest_path_algorithm exampleMatrix.data 6 (initialize_algorithm_buffers 6)).result.getD 1 0 ∧
    (merge_sortest_path 6 (shortest_path_algorithm exampleMatrix.data 6
        (initialize_algorithm_buffers 6))).result.getD 1 0 =
      (shortest_path_algorithm exampleMatrix.data 6 (initialize_algorithm_buffers 6)).distance.getD 1 0 ∧
    (merge_sortest_path 6 (shortest_path_algorithm exampleMatrix.data 6
        (initialize_algorithm_buffers 6))).visited.getD 1 0 = 0 := by
  have h := C6_merge_semantics 6
    (shortest_path_algorithm exampleMatrix.data 6 (initialize_algorithm_buffers 6)) 1
    (by decide)
  have hlt : (shortest_path_algorithm exampleMatrix.data 6
      (initialize_algorithm_buffers 6)).distance.getD 1 0 <
      (shortest_path_algorithm exampleMatrix.data 6
      (initialize_algorithm_buffers 6)).result.getD 1 0 := by
    with_unfolding_all decide
  exact ⟨hlt, (h.1 hlt).1, h.2.2.1 (by decide)⟩

lemma iterate_roundStepT (data : List ℚ) (n : ℕ) (k : ℕ) (s : KState) (t : List Stage) :
    (roundStepT data n)^[k] (s, t) =
      ((roundStep data n)^[k] s,
        t ++ (List.replicate k [Stage.relax, Stage.merge]).flatten) := by
  induction k generalizing s t with
  | zero => simp
  | succ k ih =>
    rw [Function.iterate_succ_apply', Function.iterate_succ_apply', ih]
    unfold roundStepT roundStep
    simp [List.replicate_succ', List.flatten_append]

/-- **C7.** For every input, the controller dispatches Init exactly once
and then exactly `width` (Relax, Merge) round pairs in that strict order,
with no early exit: the dispatch trace is literally
`Init :: (Relax, Merge) * width`, independent of the data, and the state
it drives is the pipeline's final state. -/
theorem C7_dispatch_schedule (m : Matrix) :
    (runTrace m).2 =
      Stage.start :: (List.replicate m.width [Stage.relax, Stage.merge]).flatten ∧
    (runTrace m).1 = finalState m := by
  unfold runTrace finalState stateAfter
  rw [iterate_roundStepT]
  simp

/-- **C8.** The `/sortest` validation boundary behaves exactly as the
claim's cascade: empty data → "The matrix is empty"; otherwise
width ≠ height → "The matrix is not square"; otherwise width > 128 →
"The matrix is too big" (the source tests `height > 128`, equivalent
here because the preceding guard forces width = height); otherwise
`width*height ≠ data.length` → "The matrix size and dimensions are not
the same"; otherwise the core runs. -/
theorem C8_validation_cascade (m : Matrix) :
    sortest_path_endpoint m = claimed_validation m := by
  unfold sortest_path_endpoint claimed_validation
  by_cases h1 : m.data.length = 0
  · simp [h1]
  · by_cases h2 : m.height = m.width
    · rw [h2]
    · simp [h1, h2, Ne.symm h2, ne_comm]

/-- **C2, amended.** For every valid input, the returned path table is
ordered by vertex id and its reported distance for vertex `v` is the
final value of the *candidate* `distance` buffer (the extractor reads
the candidate buffer, not the committed one); when every weight is
nonnegative, the candidate and committed buffers provably agree after
the final Merge, so the reported distance then equals the committed
`result[v]`. -/
theorem C2_amended (m : Matrix) (hd : ∀ i, 0 ≤ m.data.getD i 0)
    (v : ℕ) (hv : v < m.width) :
    ((get_sortest_path m).getD v (0, 0)).2 = (finalState m).distance.getD v 0 ∧
    ((get_sortest_path m).getD v (0, 0)).2 = (finalState m).result.getD v 0 ∧
    (get_sortest_path m).length = m.width := by
  have hstruct : ((get_sortest_path m).getD v (0, 0)).2 =
      (finalState m).distance.getD v 0 := by
    unfold get_sortest_path
    rw [getD_map_range hv]
  have hlen : (get_sortest_path m).length = m.width := by
    unfold get_sortest_path
    rw [List.length_map, List.length_range]
  obtain ⟨k, hk⟩ : ∃ k, m.width = k + 1 := ⟨m.width - 1, by omega⟩
  have heq := (preInv_roundStep m.data m.width hd (stateAfter m k)
    (preInv_stateAfter m hd k)).2 v hv
  have hfin : (finalState m).result.getD v 0 = (finalState m).distance.getD v 0 := by
    unfold finalState
    rw [show stateAfter m m.width = stateAfter m (k + 1) from by rw [hk], stateAfter_succ]
    exact heq
  exact ⟨hstruct, hstruct.trans hfin.symm, hlen⟩

/-- **C2, amended, witness.** On the (nonnegative) 6×6 scenario, vertex
3's reported distance coincides with the committed `result[3]`. -/
theorem C2_amended_witness :
    ((get_sortest_path exampleMatrix).getD 3 (0, 0)).2 =
      (finalState exampleMatrix).result.getD 3 0 ∧
    (get_sortest_path exampleMatrix).length = exampleMatrix.width := by
  have hd : ∀ i, 0 ≤ exampleMatrix.data.getD i 0 :=
    getD_nonneg (by decide)
  have h := C2_amended exampleMatrix hd 3 (by decide)
  exact ⟨h.2.1, h.2.2⟩

/-- **C3, amended.** In every Relax dispatch, a lane with `visited[v]`
already true changes nothing.  For an unvisited lane `v` whose valid
candidates `result[e] + weight(v,e)` are all positive, if `estar` is the
*largest* valid edge whose candidate is strictly below `result[v]`, then
after the serial scan `distance[v]` holds `estar`'s candidate and
`vertex_temp[v]` holds `estar` — the last qualifying edge, not the
minimum-candidate edge — and `visited[v]` is set to `1`. -/
theorem C3_amended (data : List ℚ) (n : ℕ) (s : KState) (v : ℕ) (hv : v < n) :
    (s.visited.getD v 0 = 1 →
      (shortest_path_algorithm data n s).distance.getD v 0 = s.distance.getD v 0 ∧
      (shortest_path_algorithm data n s).vertex_temp.getD v 0 = s.vertex_temp.getD v 0 ∧
      (shortest_path_algorithm data n s).visited.getD v 0 = 1) ∧
    (s.visited.getD v 0 ≠ 1 →
      (∀ e, e < n → validEdge data n v e → 0 < cand data n s.result v e) →
      ∀ estar, estar < n → validEdge data n v estar →
        cand data n s.result v estar < s.result.getD v 0 →
        (∀ e, e < n → estar < e →
          ¬ (validEdge data n v e ∧ cand data n s.result v e < s.result.getD v 0)) →
        (shortest_path_algorithm data n s).distance.getD v 0 =
          cand data n s.result v estar ∧
        (shortest_path_algorithm data n s).vertex_temp.getD v 0 = estar ∧
        (shortest_path_algorithm data n s).visited.getD v 0 = 1) := by
  constructor
  · intro h
    rw [relax_distance_getD _ _ _ hv, relax_vertexTemp_getD _ _ _ hv,
      relax_visited_getD _ _ _ hv, relaxLane_of_visited _ _ _ _ h]
    exact ⟨rfl, rfl, rfl⟩
  · intro h hpos estar he hevalid hebeats hlast
    rw [relax_distance_getD _ _ _ hv, relax_vertexTemp_getD _ _ _ hv,
      relax_visited_getD _ _ _ hv, relaxLane_of_unvisited _ _ _ _ h,
      relaxFold_last_qualifying data n s.result v n
        (s.distance.getD v 0) (s.vertex_temp.getD v 0) hpos estar he hevalid hebeats hlast]
    exact ⟨rfl, rfl, rfl⟩

/-- **C3, amended, witness.** The amended claim at the second Relax
dispatch of the 6×6 run, lane 3: the last qualifying edge is `2` with
candidate `2 + 8 = 10`, and that is exactly what the lane ends up
holding. -/
theorem C3_amended_witness :
    stateRoundOne.visited.getD 3 0 ≠ 1 ∧
    cand exampleMatrix.data 6 stateRoundOne.result 3 2 = 10 ∧
    (shortest_path_algorithm exampleMatrix.data 6 stateRoundOne).distance.getD 3 0 = 10 ∧
    (shortest_path_algorithm exampleMatrix.data 6 stateRoundOne).vertex_temp.getD 3 0 = 2 ∧
    (shortest_path_algorithm exampleMatrix.data 6 stateRoundOne).visited.getD 3 0 = 1 := by
  have h := (C3_amended exampleMatrix.data 6 stateRoundOne 3 (by decide)).2
    (by with_unfolding_all decide) (by with_unfolding_all decide)
    2 (by decide) (by with_unfolding_all decide) (by with_unfolding_all decide)
    (by with_unfolding_all decide)
  have hc : cand exampleMatrix.data 6 stateRoundOne.result 3 2 = 10 := by
    with_unfolding_all decide
  exact ⟨by with_unfolding_all decide, hc, hc ▸ h.1, h.2.1, h.2.2⟩

/-- **C4, amended.** For every valid input containing a vertex `v` with no
valid edge (every `weight(v,e)` is `0` or the infinite sentinel), the
distance reported for `v` in the returned path table is `0.0` — not the
infinite sentinel: the candidate buffer, which the extractor reads, keeps
its zero initialization for such a lane. -/
theorem C4_amended (m : Matrix) {v : ℕ} (hv : v < m.width)
    (hiso : ∀ e, e < m.width → ¬ validEdge m.data m.width v e) :
    ((get_sortest_path m).getD v (0, 1)).2 = 0 := by
  unfold get_sortest_path
  rw [getD_map_range hv]
  exact isolated_distance_zero m hv hiso m.width

/-- **C4, amended, witness.** The amended claim applied to vertex 1 of the
2×2 all-zero input. -/
theorem C4_amended_witness :
    (1 < zeroMatrix.width ∧
      ∀ e, e < zeroMatrix.width → ¬ validEdge zeroMatrix.data zeroMatrix.width 1 e) ∧
    ((get_sortest_path zeroMatrix).getD 1 (0, 1)).2 = 0 :=
  ⟨⟨by decide, by decide⟩, C4_amended zeroMatrix (by decide) (by decide)⟩

/-- **C5.** For every valid input (nonzero vertex count), `result[0] = 0`
after Init and after every round; a Relax dispatch never touches the
`result` buffer at all (so `result[0] = 0` holds after every Relax too);
`result[v]` never increases from one round to the next; and every
`v ≠ 0` starts at the infinite sentinel after Init. -/
theorem C5_result_invariants (m : Matrix) (hm : 0 < m.width) (k : ℕ) (v : ℕ)
    (hv : v < m.width) :
    (stateAfter m k).result.getD 0 0 = 0 ∧
    (shortest_path_algorithm m.data m.width (stateAfter m k)).result =
      (stateAfter m k).result ∧
    (stateAfter m (k + 1)).result.getD v 0 ≤ (stateAfter m k).result.getD v 0 ∧
    (v ≠ 0 → (stateAfter m 0).result.getD v 0 = fltMax) := by
  refine ⟨(lane0_inv m hm k).1, relax_result_eq _ _ _, ?_, ?_⟩
  · rw [stateAfter_succ]
    unfold roundStep
    rw [merge_result_getD' _ _ hv, relax_result_eq]
    by_cases h : (shortest_path_algorithm m.data m.width (stateAfter m k)).distance.getD v 0 <
        (stateAfter m k).result.getD v 0
    · rw [if_pos h]
      exact le_of_lt h
    · rw [if_neg h]
  · intro hv0
    rw [stateAfter_zero, init_result_getD hv, if_neg hv0]

/-- **C5, witness.** The invariants observed concretely on the 6×6 run at
round 2, vertex 1. -/
theorem C5_result_invariants_witness :
    (stateAfter exampleMatrix 2).result.getD 0 0 = 0 ∧
    (stateAfter exampleMatrix 3).result.getD 1 0 ≤
      (stateAfter exampleMatrix 2).result.getD 1 0 ∧
    (stateAfter exampleMatrix 0).result.getD 1 0 = fltMax := by
  have h := C5_result_invariants exampleMatrix (by decide) 2 1 (by decide)
  exact ⟨h.1, h.2.2.1, h.2.2.2 (by decide)⟩

/-- **C9, amended.** For every input and every assignment of outcomes to
the device operations: an Init-enqueue failure is returned as an error
carrying the device status; otherwise, if any of the `5 * width` loop
operations (Relax enqueue, Merge enqueue, three reads per iteration)
fails, the request aborts by panic with the fixed `.expect` message and
no table — partial or otherwise — is returned; the full path table is
returned exactly when every operation succeeds.  Nothing is ever
retried: the outcome is a pure function of the first failure. -/
theorem C9_amended (m : Matrix) (oracle : ℕ → Option String) :
    runWithFailures m oracle = claimOutcome m oracle := by
  unfold runWithFailures claimOutcome
  cases ho : oracle 0 with
  | some s => rfl
  | none =>
    have hiff : ((List.range m.width).findSome? (fun i => roundOps oracle i) = none) ↔
        ((List.range' 1 (5 * m.width)).all fun k => (oracle k).isNone) = true := by
      rw [List.findSome?_eq_none_iff, List.all_eq_true]
      constructor
      · intro h k hk
        rw [List.mem_range'_1] at hk
        obtain ⟨hk1, hk2⟩ := hk
        have hi : (k - 1) / 5 < m.width := by omega
        have h5 := (roundOps_eq_none oracle ((k - 1) / 5)).mp
          (h _ (List.mem_range.mpr hi))
        rw [Option.isNone_iff_eq_none]
        have hr : (k - 1) % 5 = 0 ∨ (k - 1) % 5 = 1 ∨ (k - 1) % 5 = 2 ∨
            (k - 1) % 5 = 3 ∨ (k - 1) % 5 = 4 := by omega
        rcases hr with hr | hr | hr | hr | hr
        · rw [show k = 5 * ((k - 1) / 5) + 1 from by omega]
          exact h5.1
        · rw [show k = 5 * ((k - 1) / 5) + 2 from by omega]
          exact h5.2.1
        · rw [show k = 5 * ((k - 1) / 5) + 3 from by omega]
          exact h5.2.2.1
        · rw [show k = 5 * ((k - 1) / 5) + 4 from by omega]
          exact h5.2.2.2.1
        · rw [show k = 5 * ((k - 1) / 5) + 5 from by omega]
          exact h5.2.2.2.2
      · intro h i hi
        rw [List.mem_range] at hi
        rw [roundOps_eq_none]
        refine ⟨?_, ?_, ?_, ?_, ?_⟩ <;>
          · rw [← Option.isNone_iff_eq_none]
            apply h
            rw [List.mem_range'_1]
            omega
    cases hfs : (List.range m.width).findSome? (fun i => roundOps oracle i) with
    | some s =>
      rw [if_neg (fun hall => by
        rw [← hiff] at hall
        rw [hall] at hfs
        exact Option.noConfusion hfs)]
    | none =>
      rw [if_pos (hiff.mp hfs)]

/-- **C10.** For every valid input, the first entry of the returned path
table is exactly `(0, 0.0)`: lane 0's visited flag is set at Init and
never reset, so it never relaxes, its candidate distance stays `0`, Merge
never commits for it, and the zero-initialized predecessor `0` is
reported. -/
theorem C10_first_entry (m : Matrix) (hm : 0 < m.width) :
    (get_sortest_path m).getD 0 (1, 1) = (0, 0) := by
  obtain ⟨h1, h2, h3, h4⟩ := lane0_inv m hm m.width
  unfold get_sortest_path
  rw [getD_map_range hm]
  unfold finalState
  rw [h4, h2]
  rfl

/-- **C10, witness.** The theorem applied to the 2×2 all-zero input. -/
theorem C10_first_entry_witness :
    0 < zeroMatrix.width ∧ (get_sortest_path zeroMatrix).getD 0 (1, 1) = (0, 0) :=
  ⟨by decide, C10_first_entry zeroMatrix (by decide)⟩

end PathWalker
